import Mathlib

/-!
# Decision-matrix evaluation kernel: a shallow embedding

This file embeds the decision-rule computations of the decision-theory
lesson (Maximax, Maximin, Minimax Regret, Expected Utility demos, and the
probability stepper of the Expected Utility section) and proves the
specified properties about them.

JavaScript numbers that can arise in these computations are modelled as
`WithBot (WithTop ℚ)`: a finite rational, `-Infinity` (the value of
`Math.max()` on no arguments, i.e. `⊥`), or `Infinity` (the value of
`Math.min()` on no arguments, i.e. the coercion of `⊤`).  No computation
in the embedded code can produce `NaN` from these inputs (the only
subtraction has a finite subtrahend).  Matrix entries and probabilities
supplied by the caller are plain rationals.
-/

/-- A JavaScript number as it can appear in the evaluator computations:
a finite rational, `-Infinity` (`⊥`) or `Infinity` (`(⊤ : WithTop ℚ)`). -/
abbrev JsNum := WithBot (WithTop ℚ)

/-- Embed a finite rational as a JS number. -/
def toJs (q : ℚ) : JsNum := ((q : WithTop ℚ) : JsNum)

/-- JS `Infinity` as a `JsNum`. -/
def jsInf : JsNum := ((⊤ : WithTop ℚ) : JsNum)

/-- `Math.max(...l)`: the maximum of a list of JS numbers, `-Infinity`
when the list is empty. -/
def jsMax (l : List JsNum) : JsNum := l.foldr max ⊥

/-- `Math.min(...l)`: the minimum of a list of JS numbers, `Infinity`
when the list is empty. -/
def jsMin (l : List JsNum) : JsNum := l.foldr min jsInf

/-- Helper for `Array.prototype.indexOf`: the index of the first element
equal to `x`, if any. -/
def jsIndexOfAux (x : JsNum) : List JsNum → Option ℕ
  | [] => none
  | y :: t => if y = x then some 0 else (jsIndexOfAux x t).map (· + 1)

/-- `l.indexOf(x)` on JS arrays of numbers: the index of the first
occurrence of `x`, or `-1` when `x` does not occur.  (JS `===` on the
numbers reachable here is plain equality: no `NaN` arises.) -/
def jsIndexOf (l : List JsNum) (x : JsNum) : ℤ :=
  match jsIndexOfAux x l with
  | some i => (i : ℤ)
  | none => -1

/-- The result of one decision criterion, as the spec packages it:
the chosen row index (an integer, since JS `indexOf` yields `-1` when the
searched value is absent) and the per-alternative supporting values. -/
structure CriterionResult where
  chosenIndex : ℤ
  supportingValues : List JsNum
  deriving DecidableEq, Repr

/-- `evaluateMaximax`, from the Maximax demo:
`maxPayoffs = payoffs.map(row => Math.max(...row))` and
`maximaxIndex = maxPayoffs.indexOf(Math.max(...maxPayoffs))`. -/
def evaluateMaximax (matrix : List (List ℚ)) : CriterionResult :=
  let maxPayoffs := matrix.map (fun row => jsMax (row.map toJs))
  { chosenIndex := jsIndexOf maxPayoffs (jsMax maxPayoffs)
    supportingValues := maxPayoffs }

/-- `evaluateMaximin`, from the Maximin demo:
`minPayoffs = payoffs.map(row => Math.min(...row))` and
`maximinIndex = minPayoffs.indexOf(Math.max(...minPayoffs))`. -/
def evaluateMaximin (matrix : List (List ℚ)) : CriterionResult :=
  let minPayoffs := matrix.map (fun row => jsMin (row.map toJs))
  { chosenIndex := jsIndexOf minPayoffs (jsMax minPayoffs)
    supportingValues := minPayoffs }

section BasicLemmas

theorem toJs_le_toJs {a b : ℚ} : toJs a ≤ toJs b ↔ a ≤ b := by
  simp [toJs]

theorem toJs_inj {a b : ℚ} (h : toJs a = toJs b) : a = b := by
  simpa [toJs] using h

/-- Every element of a list is at most its `jsMax`. -/
theorem le_jsMax {l : List JsNum} {x : JsNum} (hx : x ∈ l) : x ≤ jsMax l := by
  induction l with
  | nil => cases hx
  | cons a t ih =>
      rcases List.mem_cons.mp hx with rfl | hx
      · exact le_max_left _ _
      · exact le_trans (ih hx) (le_max_right _ _)

/-- The `jsMax` of a non-empty list is one of its elements. -/
theorem jsMax_mem {l : List JsNum} (hl : l ≠ []) : jsMax l ∈ l := by
  induction l with
  | nil => cases hl rfl
  | cons a t ih =>
      cases t with
      | nil => simp [jsMax]
      | cons b u =>
          rcases max_choice a (jsMax (b :: u)) with h | h
        <;> simp only [jsMax, List.foldr_cons] at h ⊢
          · rw [h]; exact List.mem_cons_self _ _
          · rw [h]; exact List.mem_cons_of_mem _ (ih (by simp))

/-- Every element of a list is at least its `jsMin`. -/
theorem jsMin_le {l : List JsNum} {x : JsNum} (hx : x ∈ l) : jsMin l ≤ x := by
  induction l with
  | nil => cases hx
  | cons a t ih =>
      rcases List.mem_cons.mp hx with rfl | hx
      · exact min_le_left _ _
      · exact le_trans (min_le_right _ _) (ih hx)

/-- The `jsMin` of a non-empty list is one of its elements. -/
theorem jsMin_mem {l : List JsNum} (hl : l ≠ []) : jsMin l ∈ l := by
  induction l with
  | nil => cases hl rfl
  | cons a t ih =>
      cases t with
      | nil =>
          have : min a jsInf = a := min_eq_left le_top
          simp [jsMin, this]
      | cons b u =>
          rcases min_choice a (jsMin (b :: u)) with h | h
        <;> simp only [jsMin, List.foldr_cons] at h ⊢
          · rw [h]; exact List.mem_cons_self _ _
          · rw [h]; exact List.mem_cons_of_mem _ (ih (by simp))

/-- When `x` occurs in `l`, `jsIndexOf` returns the index of its first
occurrence. -/
theorem jsIndexOf_spec {l : List JsNum} {x : JsNum} (hx : x ∈ l) :
    ∃ i : ℕ, jsIndexOf l x = (i : ℤ) ∧ l.get? i = some x ∧
      ∀ k : ℕ, k < i → l.get? k ≠ some x := by
  induction l with
  | nil => cases hx
  | cons a t ih =>
      by_cases ha : a = x
      · refine ⟨0, ?_, ?_, ?_⟩
        · simp [jsIndexOf, jsIndexOfAux, ha]
        · simp [ha]
        · intro k hk; omega
      · have hx' : x ∈ t := by
          rcases List.mem_cons.mp hx with h | h
          · exact absurd h.symm ha
          · exact h
        obtain ⟨i, hi, hget, hfirst⟩ := ih hx'
        have haux : jsIndexOfAux x t = some i := by
          rcases h : jsIndexOfAux x t with _ | j
          · have hneg : jsIndexOf t x = -1 := by simp [jsIndexOf, h]
            rw [hi] at hneg; omega
          · have hj : jsIndexOf t x = (j : ℤ) := by simp [jsIndexOf, h]
            rw [hi] at hj
            have hji : j = i := by exact_mod_cast hj.symm
            exact congrArg some hji
        refine ⟨i + 1, ?_, ?_, ?_⟩
        · simp [jsIndexOf, jsIndexOfAux, ha, haux]
        · simpa using hget
        · intro k hk
          cases k with
          | zero => simpa using ha
          | succ k' =>
              have : k' < i := by omega
              simpa using hfirst k' this

end BasicLemmas

/-- For a non-empty list of rationals, `Math.max(...row)` is the embedding
of an element that bounds the whole row. -/
theorem jsMax_map_toJs {l : List ℚ} (hl : l ≠ []) :
    ∃ q ∈ l, jsMax (l.map toJs) = toJs q ∧ ∀ x ∈ l, x ≤ q := by
  have hmem : jsMax (l.map toJs) ∈ l.map toJs :=
    jsMax_mem (by simpa using hl)
  obtain ⟨q, hq, heq⟩ := List.mem_map.mp hmem
  refine ⟨q, hq, heq.symm, fun x hx => ?_⟩
  have : toJs x ≤ jsMax (l.map toJs) := le_jsMax (List.mem_map_of_mem _ hx)
  rw [← heq] at this
  exact toJs_le_toJs.mp this

/-- For a non-empty list of rationals, `Math.min(...row)` is the embedding
of an element that is below the whole row. -/
theorem jsMin_map_toJs {l : List ℚ} (hl : l ≠ []) :
    ∃ q ∈ l, jsMin (l.map toJs) = toJs q ∧ ∀ x ∈ l, q ≤ x := by
  have hmem : jsMin (l.map toJs) ∈ l.map toJs :=
    jsMin_mem (by simpa using hl)
  obtain ⟨q, hq, heq⟩ := List.mem_map.mp hmem
  refine ⟨q, hq, heq.symm, fun x hx => ?_⟩
  have : jsMin (l.map toJs) ≤ toJs x := jsMin_le (List.mem_map_of_mem _ hx)
  rw [← heq] at this
  exact toJs_le_toJs.mp this

/-- `vals.indexOf(Math.max(...vals))` on a non-empty list: the first index
holding a value that bounds the whole list. -/
theorem indexOf_jsMax_spec {vals : List JsNum} (h : vals ≠ []) :
    ∃ c : ℕ, ∃ m : JsNum, jsIndexOf vals (jsMax vals) = (c : ℤ) ∧
      vals.get? c = some m ∧ (∀ v ∈ vals, v ≤ m) ∧
      ∀ k : ℕ, k < c → vals.get? k ≠ some m := by
  obtain ⟨c, hc, hget, hfirst⟩ := jsIndexOf_spec (jsMax_mem h)
  exact ⟨c, jsMax vals, hc, hget, fun v hv => le_jsMax hv, hfirst⟩

/-- `vals.indexOf(Math.min(...vals))` on a non-empty list: the first index
holding a value below the whole list. -/
theorem indexOf_jsMin_spec {vals : List JsNum} (h : vals ≠ []) :
    ∃ c : ℕ, ∃ m : JsNum, jsIndexOf vals (jsMin vals) = (c : ℤ) ∧
      vals.get? c = some m ∧ (∀ v ∈ vals, m ≤ v) ∧
      ∀ k : ℕ, k < c → vals.get? k ≠ some m := by
  obtain ⟨c, hc, hget, hfirst⟩ := jsIndexOf_spec (jsMin_mem h)
  exact ⟨c, jsMin vals, hc, hget, fun v hv => jsMin_le hv, hfirst⟩

/-- The example payoff matrix used by every demo widget of the lesson. -/
def payoffs : List (List ℚ) := [[200, 100, -50], [150, 120, 30], [80, 80, 80]]

/-- C1: for every payoff matrix with at least one row and at least one
column in every row, `evaluateMaximax` returns as supportingValues the
per-row maxima and a chosenIndex that is the first index attaining the
greatest row maximum, so the chosen row's maximum bounds every other
row's maximum; on the demo matrix the row maxima are `[200, 150, 80]` and
the chosen index is `0`. -/
theorem evaluateMaximax_correct (matrix : List (List ℚ)) (hne : matrix ≠ [])
    (hrows : ∀ row ∈ matrix, row ≠ []) :
    (∀ i row, matrix.get? i = some row →
      ∃ q ∈ row, (evaluateMaximax matrix).supportingValues.get? i = some (toJs q) ∧
        ∀ x ∈ row, x ≤ q) ∧
    (∃ c : ℕ, ∃ m : JsNum, (evaluateMaximax matrix).chosenIndex = (c : ℤ) ∧
      (evaluateMaximax matrix).supportingValues.get? c = some m ∧
      (∀ v ∈ (evaluateMaximax matrix).supportingValues, v ≤ m) ∧
      ∀ k : ℕ, k < c → (evaluateMaximax matrix).supportingValues.get? k ≠ some m) ∧
    evaluateMaximax payoffs =
      { chosenIndex := 0, supportingValues := [toJs 200, toJs 150, toJs 80] } := by
  refine ⟨?_, ?_, ?_⟩
  · intro i row hrow
    have hmem : row ∈ matrix := List.get?_mem hrow
    obtain ⟨q, hq, heq, hbound⟩ := jsMax_map_toJs (hrows row hmem)
    refine ⟨q, hq, ?_, hbound⟩
    show (matrix.map (fun r => jsMax (r.map toJs))).get? i = some (toJs q)
    rw [List.get?_map, hrow]
    simpa using heq
  · have hvals : matrix.map (fun r => jsMax (r.map toJs)) ≠ [] := by
      simpa using hne
    exact indexOf_jsMax_spec hvals
  · decide

/-- Witness for C1 at the demo matrix. -/
theorem evaluateMaximax_correct_witness :
    ∃ c : ℕ, ∃ m : JsNum, (evaluateMaximax payoffs).chosenIndex = (c : ℤ) ∧
      (evaluateMaximax payoffs).supportingValues.get? c = some m ∧
      (∀ v ∈ (evaluateMaximax payoffs).supportingValues, v ≤ m) ∧
      ∀ k : ℕ, k < c → (evaluateMaximax payoffs).supportingValues.get? k ≠ some m :=
  (evaluateMaximax_correct payoffs (by decide) (by decide)).2.1

/-- C2: for every payoff matrix with at least one row and at least one
column in every row, `evaluateMaximin` returns as supportingValues the
per-row minima and a chosenIndex that is the first index attaining the
greatest row minimum, so the chosen row's minimum bounds every other
row's minimum; on the demo matrix the row minima are `[-50, 30, 80]` and
the chosen index is `2`. -/
theorem evaluateMaximin_correct (matrix : List (List ℚ)) (hne : matrix ≠ [])
    (hrows : ∀ row ∈ matrix, row ≠ []) :
    (∀ i row, matrix.get? i = some row →
      ∃ q ∈ row, (evaluateMaximin matrix).supportingValues.get? i = some (toJs q) ∧
        ∀ x ∈ row, q ≤ x) ∧
    (∃ c : ℕ, ∃ m : JsNum, (evaluateMaximin matrix).chosenIndex = (c : ℤ) ∧
      (evaluateMaximin matrix).supportingValues.get? c = some m ∧
      (∀ v ∈ (evaluateMaximin matrix).supportingValues, v ≤ m) ∧
      ∀ k : ℕ, k < c → (evaluateMaximin matrix).supportingValues.get? k ≠ some m) ∧
    evaluateMaximin payoffs =
      { chosenIndex := 2, supportingValues := [toJs (-50), toJs 30, toJs 80] } := by
  refine ⟨?_, ?_, ?_⟩
  · intro i row hrow
    have hmem : row ∈ matrix := List.get?_mem hrow
    obtain ⟨q, hq, heq, hbound⟩ := jsMin_map_toJs (hrows row hmem)
    refine ⟨q, hq, ?_, hbound⟩
    show (matrix.map (fun r => jsMin (r.map toJs))).get? i = some (toJs q)
    rw [List.get?_map, hrow]
    simpa using heq
  · have hvals : matrix.map (fun r => jsMin (r.map toJs)) ≠ [] := by
      simpa using hne
    exact indexOf_jsMax_spec hvals
  · decide

/-- Witness for C2 at the demo matrix. -/
theorem evaluateMaximin_correct_witness :
    ∃ c : ℕ, ∃ m : JsNum, (evaluateMaximin payoffs).chosenIndex = (c : ℤ) ∧
      (evaluateMaximin payoffs).supportingValues.get? c = some m ∧
      (∀ v ∈ (evaluateMaximin payoffs).supportingValues, v ≤ m) ∧
      ∀ k : ℕ, k < c → (evaluateMaximin payoffs).supportingValues.get? k ≠ some m :=
  (evaluateMaximin_correct payoffs (by decide) (by decide)).2.1

/-- `bestInColumn[colIndex] - payoff` from the regret demo: subtraction of
a finite payoff from a JS number.  The subtrahend is always a finite
matrix entry, so no `NaN` can arise (`-Infinity - y = -Infinity`,
`Infinity - y = Infinity`). -/
def jsSubFin (a : JsNum) (y : ℚ) : JsNum := WithBot.map (WithTop.map (· - y)) a

theorem jsSubFin_toJs (x y : ℚ) : jsSubFin (toJs x) y = toJs (x - y) := rfl

/-- The result of the Minimax Regret demo computation: the chosen row
index, the per-column best payoffs, the regret matrix and the per-row
maximum regrets. -/
structure RegretResult where
  chosenIndex : ℤ
  bestInColumn : List JsNum
  regretMatrix : List (List JsNum)
  maxRegrets : List JsNum
  deriving DecidableEq, Repr

/-- `evaluateMinimaxRegret`, from the Minimax Regret demo:
`bestInColumn = statesOfNature.map((_, colIndex) => Math.max(...payoffs.map(row => row[colIndex])))`,
`regretMatrix = payoffs.map(row => row.map((payoff, colIndex) => bestInColumn[colIndex] - payoff))`,
`maxRegrets = regretMatrix.map(row => Math.max(...row))`,
`minimaxIndex = maxRegrets.indexOf(Math.min(...maxRegrets))`.
The number of states of nature equals the column count of the (well-formed)
matrix, modelled as the length of its first row.  The `getD` defaults stand
for accesses that only a malformed matrix could reach (JS would read
`undefined` and propagate `NaN` there); every theorem below assumes the
equal-length shape under which each access is in bounds. -/
def evaluateMinimaxRegret (matrix : List (List ℚ)) : RegretResult :=
  let numCols := (matrix.headD []).length
  let bestInColumn := (List.range numCols).map
    (fun colIndex => jsMax ((matrix.map (fun row => row.getD colIndex 0)).map toJs))
  let regretMatrix := matrix.map
    (fun row => row.enum.map (fun jp => jsSubFin (bestInColumn.getD jp.1 ⊥) jp.2))
  let maxRegrets := regretMatrix.map jsMax
  { chosenIndex := jsIndexOf maxRegrets (jsMin maxRegrets)
    bestInColumn := bestInColumn
    regretMatrix := regretMatrix
    maxRegrets := maxRegrets }

/-- For a well-formed matrix, entry `j` of `bestInColumn` is the embedding
of a rational attained in column `j` that bounds the whole column. -/
theorem bestInColumn_spec (matrix : List (List ℚ)) (hne : matrix ≠ [])
    {j : ℕ} (hj : j < (matrix.headD []).length) :
    ∃ q : ℚ, (evaluateMinimaxRegret matrix).bestInColumn.get? j = some (toJs q) ∧
      (∃ row ∈ matrix, row.getD j 0 = q) ∧
      ∀ row ∈ matrix, row.getD j 0 ≤ q := by
  have hcol : matrix.map (fun row => row.getD j 0) ≠ [] := by simpa using hne
  obtain ⟨q, hq, heq, hbound⟩ := jsMax_map_toJs hcol
  obtain ⟨row₀, hrow₀, hval₀⟩ := List.mem_map.mp hq
  refine ⟨q, ?_, ⟨row₀, hrow₀, hval₀⟩, ?_⟩
  · show ((List.range (matrix.headD []).length).map
      (fun colIndex => jsMax ((matrix.map (fun row => row.getD colIndex 0)).map toJs))).get? j
      = some (toJs q)
    rw [List.get?_map, List.get?_range hj]
    simpa using heq
  · intro row hrow
    exact hbound _ (List.mem_map_of_mem _ hrow)

/-- For a well-formed matrix, entry `j` of `bestInColumn`, read with the
code's `getD` access, is `toJs` of a column bound. -/
theorem bestInColumn_getD_spec (matrix : List (List ℚ)) (hne : matrix ≠ [])
    {j : ℕ} (hj : j < (matrix.headD []).length) :
    ∃ q : ℚ, (evaluateMinimaxRegret matrix).bestInColumn.getD j ⊥ = toJs q ∧
      (∃ row ∈ matrix, row.getD j 0 = q) ∧
      ∀ row ∈ matrix, row.getD j 0 ≤ q := by
  obtain ⟨q, hget, hmem, hbound⟩ := bestInColumn_spec matrix hne hj
  refine ⟨q, ?_, hmem, hbound⟩
  rw [List.getD_eq_getD_get?, hget]
  rfl

/-- C3: for every non-empty payoff matrix with equal-length non-empty
rows, `evaluateMinimaxRegret` computes `maxRegret[i]` as the maximum
entry of row `i` of the regret matrix and returns a chosenIndex that is
the first index attaining the smallest maximum regret, so the chosen
row's max-regret is below every other row's max-regret; on the demo
matrix `bestInColumn` is `[200, 120, 80]`, the regret rows are
`[0,20,130]`, `[50,0,50]`, `[120,40,0]`, `maxRegret` is `[130, 50, 120]`
and the chosen index is `1`. -/
theorem evaluateMinimaxRegret_correct (matrix : List (List ℚ)) (hne : matrix ≠ [])
    (hlen : ∀ row ∈ matrix, row.length = (matrix.headD []).length)
    (hcols : (matrix.headD []).length ≠ 0) :
    (∀ i rrow, (evaluateMinimaxRegret matrix).regretMatrix.get? i = some rrow →
      (evaluateMinimaxRegret matrix).maxRegrets.get? i = some (jsMax rrow) ∧
      jsMax rrow ∈ rrow ∧ ∀ x ∈ rrow, x ≤ jsMax rrow) ∧
    (∃ c : ℕ, ∃ m : JsNum, (evaluateMinimaxRegret matrix).chosenIndex = (c : ℤ) ∧
      (evaluateMinimaxRegret matrix).maxRegrets.get? c = some m ∧
      (∀ v ∈ (evaluateMinimaxRegret matrix).maxRegrets, m ≤ v) ∧
      ∀ k : ℕ, k < c → (evaluateMinimaxRegret matrix).maxRegrets.get? k ≠ some m) ∧
    evaluateMinimaxRegret payoffs =
      { chosenIndex := 1
        bestInColumn := [toJs 200, toJs 120, toJs 80]
        regretMatrix := [[toJs 0, toJs 20, toJs 130], [toJs 50, toJs 0, toJs 50],
          [toJs 120, toJs 40, toJs 0]]
        maxRegrets := [toJs 130, toJs 50, toJs 120] } := by
  have hfield : (evaluateMinimaxRegret matrix).regretMatrix = matrix.map
      (fun row => row.enum.map
        (fun jp => jsSubFin ((evaluateMinimaxRegret matrix).bestInColumn.getD jp.1 ⊥) jp.2)) :=
    rfl
  refine ⟨?_, ?_, ?_⟩
  · intro i rrow hr
    have hmr : (evaluateMinimaxRegret matrix).maxRegrets.get? i = some (jsMax rrow) := by
      show ((evaluateMinimaxRegret matrix).regretMatrix.map jsMax).get? i = some (jsMax rrow)
      rw [List.get?_map, hr]
      rfl
    have hr' := hr
    rw [hfield, List.get?_map] at hr'
    obtain ⟨row, hrowget, hrmap⟩ := Option.map_eq_some'.mp hr'
    have hrowmem : row ∈ matrix := List.get?_mem hrowget
    have hrowne : rrow ≠ [] := by
      have hlr : rrow.length = row.length := by
        rw [← hrmap]; simp
      intro hnil
      rw [hnil] at hlr
      exact hcols (by rw [← hlen row hrowmem, ← hlr]; rfl)
    exact ⟨hmr, jsMax_mem hrowne, fun x hx => le_jsMax hx⟩
  · have hlen2 : (evaluateMinimaxRegret matrix).maxRegrets.length = matrix.length := by
      show (((evaluateMinimaxRegret matrix).regretMatrix).map jsMax).length = matrix.length
      rw [hfield]; simp
    have hvals : (evaluateMinimaxRegret matrix).maxRegrets ≠ [] := by
      intro h
      rw [h] at hlen2
      exact hne (List.eq_nil_of_length_eq_zero hlen2.symm)
    exact indexOf_jsMin_spec hvals
  · have hbest : (evaluateMinimaxRegret payoffs).bestInColumn =
        [toJs 200, toJs 120, toJs 80] := by decide
    have hregf : (evaluateMinimaxRegret payoffs).regretMatrix = payoffs.map
        (fun row => row.enum.map
          (fun jp => jsSubFin ((evaluateMinimaxRegret payoffs).bestInColumn.getD jp.1 ⊥) jp.2)) :=
      rfl
    have hreg : (evaluateMinimaxRegret payoffs).regretMatrix =
        [[toJs 0, toJs 20, toJs 130], [toJs 50, toJs 0, toJs 50],
          [toJs 120, toJs 40, toJs 0]] := by
      rw [hregf, hbest]
      show [[jsSubFin (toJs 200) 200, jsSubFin (toJs 120) 100, jsSubFin (toJs 80) (-50)],
            [jsSubFin (toJs 200) 150, jsSubFin (toJs 120) 120, jsSubFin (toJs 80) 30],
            [jsSubFin (toJs 200) 80, jsSubFin (toJs 120) 80, jsSubFin (toJs 80) 80]] = _
      simp only [jsSubFin_toJs]
      norm_num [toJs]
    have hmrf : (evaluateMinimaxRegret payoffs).maxRegrets =
        (evaluateMinimaxRegret payoffs).regretMatrix.map jsMax := rfl
    have hmr : (evaluateMinimaxRegret payoffs).maxRegrets =
        [toJs 130, toJs 50, toJs 120] := by
      rw [hmrf, hreg]; decide
    have hcif : (evaluateMinimaxRegret payoffs).chosenIndex =
        jsIndexOf (evaluateMinimaxRegret payoffs).maxRegrets
          (jsMin (evaluateMinimaxRegret payoffs).maxRegrets) := rfl
    have hci : (evaluateMinimaxRegret payoffs).chosenIndex = 1 := by
      rw [hcif, hmr]; decide
    calc evaluateMinimaxRegret payoffs
        = { chosenIndex := (evaluateMinimaxRegret payoffs).chosenIndex
            bestInColumn := (evaluateMinimaxRegret payoffs).bestInColumn
            regretMatrix := (evaluateMinimaxRegret payoffs).regretMatrix
            maxRegrets := (evaluateMinimaxRegret payoffs).maxRegrets } := rfl
      _ = _ := by rw [hci, hbest, hreg, hmr]

/-- Witness for C3 at the demo matrix. -/
theorem evaluateMinimaxRegret_correct_witness :
    ∃ c : ℕ, ∃ m : JsNum, (evaluateMinimaxRegret payoffs).chosenIndex = (c : ℤ) ∧
      (evaluateMinimaxRegret payoffs).maxRegrets.get? c = some m ∧
      (∀ v ∈ (evaluateMinimaxRegret payoffs).maxRegrets, m ≤ v) ∧
      ∀ k : ℕ, k < c → (evaluateMinimaxRegret payoffs).maxRegrets.get? k ≠ some m :=
  (evaluateMinimaxRegret_correct payoffs (by decide) (by decide) (by decide)).2.1

/-- C4: for every non-empty payoff matrix with equal-length non-empty
rows, every entry of the derived regret matrix is non-negative, and every
column holds at least one entry equal to zero (a row attaining that
column's best payoff has zero regret there). -/
theorem regretMatrix_nonneg_column_zero (matrix : List (List ℚ)) (hne : matrix ≠ [])
    (hlen : ∀ row ∈ matrix, row.length = (matrix.headD []).length)
    (hcols : (matrix.headD []).length ≠ 0) :
    (∀ rrow ∈ (evaluateMinimaxRegret matrix).regretMatrix, ∀ x ∈ rrow, toJs 0 ≤ x) ∧
    ∀ j : ℕ, j < (matrix.headD []).length → ∃ i : ℕ, ∃ rrow,
      (evaluateMinimaxRegret matrix).regretMatrix.get? i = some rrow ∧
      rrow.get? j = some (toJs 0) := by
  have hfield : (evaluateMinimaxRegret matrix).regretMatrix = matrix.map
      (fun row => row.enum.map
        (fun jp => jsSubFin ((evaluateMinimaxRegret matrix).bestInColumn.getD jp.1 ⊥) jp.2)) :=
    rfl
  constructor
  · intro rrow hrrow x hx
    rw [hfield] at hrrow
    obtain ⟨row, hrowmem, rfl⟩ := List.mem_map.mp hrrow
    obtain ⟨jp, hjp, rfl⟩ := List.mem_map.mp hx
    have hget : row.get? jp.1 = some jp.2 := by
      have := List.mem_enum_iff_get?.mp hjp
      simpa using this
    have hjlt : jp.1 < row.length := by
      rcases List.get?_eq_some.mp hget with ⟨h, _⟩
      exact h
    have hjn : jp.1 < (matrix.headD []).length := by
      rw [← hlen row hrowmem]; exact hjlt
    obtain ⟨q, hB, _, hbound⟩ := bestInColumn_getD_spec matrix hne hjn
    have hentry : row.getD jp.1 0 = jp.2 := by
      rw [List.getD_eq_getD_get?, hget]; rfl
    have hle : jp.2 ≤ q := by
      rw [← hentry]; exact hbound row hrowmem
    rw [hB, jsSubFin_toJs]
    exact toJs_le_toJs.mpr (by linarith)
  · intro j hj
    obtain ⟨q, hB, ⟨row₀, hrow₀mem, hval₀⟩, hbound⟩ := bestInColumn_getD_spec matrix hne hj
    obtain ⟨i, hi⟩ := List.get?_of_mem hrow₀mem
    refine ⟨i, row₀.enum.map
      (fun jp => jsSubFin ((evaluateMinimaxRegret matrix).bestInColumn.getD jp.1 ⊥) jp.2),
      ?_, ?_⟩
    · rw [hfield, List.get?_map, hi]
      rfl
    · have hjlt : j < row₀.length := by
        rw [hlen row₀ hrow₀mem]; exact hj
      have hget : row₀.get? j = some (row₀.get ⟨j, hjlt⟩) := List.get?_eq_get hjlt
      have hval : row₀.get ⟨j, hjlt⟩ = q := by
        rw [← hval₀, List.getD_eq_get]
      rw [List.get?_map, List.get?_enum, hget]
      simp only [Option.map_some']
      rw [hB, hval, jsSubFin_toJs, sub_self]

/-- Witness for C4 at the demo matrix: column 0 holds a zero regret. -/
theorem regretMatrix_nonneg_column_zero_witness :
    ∃ i : ℕ, ∃ rrow, (evaluateMinimaxRegret payoffs).regretMatrix.get? i = some rrow ∧
      rrow.get? 0 = some (toJs 0) :=
  (regretMatrix_nonneg_column_zero payoffs (by decide) (by decide) (by decide)).2 0 (by decide)

/-- One row's expected utility, from the Expected Utility calculator:
`row.reduce((sum, payoff, colIndex) => sum + payoff * probabilities[colIndex], 0)`.
The `getD` default stands for the out-of-range access that only a
probability vector shorter than the row could reach (JS would read
`undefined` and produce `NaN`); every theorem below assumes matching
lengths, under which each access is in bounds. -/
def expectedUtilityRow (probabilities row : List ℚ) : ℚ :=
  row.enum.foldl (fun sum jp => sum + jp.2 * probabilities.getD jp.1 0) 0

/-- `evaluateExpectedUtility`, from the Expected Utility calculator:
`expectedUtilities = payoffs.map(row => row.reduce((sum, payoff, colIndex) => sum + payoff * probabilities[colIndex], 0))`
and `bestIndex = expectedUtilities.indexOf(Math.max(...expectedUtilities))`. -/
def evaluateExpectedUtility (matrix : List (List ℚ)) (probabilities : List ℚ) :
    CriterionResult :=
  let expectedUtilities := matrix.map (expectedUtilityRow probabilities)
  { chosenIndex := jsIndexOf (expectedUtilities.map toJs) (jsMax (expectedUtilities.map toJs))
    supportingValues := expectedUtilities.map toJs }

/-- The indexed fold of the calculator, generalized over the running
index and accumulator, equals the accumulator plus a weighted sum. -/
theorem foldl_enumFrom_eu (probabilities : List ℚ) (row : List ℚ) :
    ∀ (k : ℕ) (a : ℚ),
      (row.enumFrom k).foldl (fun sum jp => sum + jp.2 * probabilities.getD jp.1 0) a =
      a + ∑ j in Finset.range row.length,
        row.getD j 0 * probabilities.getD (k + j) 0 := by
  induction row with
  | nil => intro k a; simp
  | cons p t ih =>
      intro k a
      simp only [List.enumFrom, List.foldl_cons, List.length_cons]
      rw [ih (k + 1) (a + p * probabilities.getD k 0)]
      rw [Finset.sum_range_succ']
      simp only [List.getD_cons_succ, List.getD_cons_zero]
      have hidx : ∀ j : ℕ, probabilities.getD (k + 1 + j) 0 =
          probabilities.getD (k + (j + 1)) 0 := by
        intro j
        congr 1
        omega
      rw [Finset.sum_congr rfl fun j _ => by rw [hidx j]]
      rw [add_assoc, add_comm (p * probabilities.getD k 0)]
      simp

/-- `expectedUtilityRow` is the weighted sum over the row's columns. -/
theorem expectedUtilityRow_eq_sum (probabilities row : List ℚ) :
    expectedUtilityRow probabilities row =
      ∑ j in Finset.range row.length, row.getD j 0 * probabilities.getD j 0 := by
  have := foldl_enumFrom_eu probabilities row 0 0
  simpa [expectedUtilityRow, List.enum] using this

/-- C5: for every payoff matrix and probability vector whose length
equals the column count, `evaluateExpectedUtility` returns expected
values equal to `Σ_j matrix[i][j] × probabilities[j]` and a chosenIndex
that is the first index attaining the maximum expected value; on the
demo matrix with probabilities `[0.5, 0.3, 0.2]` the expected values are
`[120, 117, 80]` and the chosen index is `0`. -/
theorem evaluateExpectedUtility_correct (matrix : List (List ℚ))
    (probabilities : List ℚ) (hne : matrix ≠ [])
    (hlen : ∀ row ∈ matrix, row.length = probabilities.length) :
    (∀ i row, matrix.get? i = some row →
      (evaluateExpectedUtility matrix probabilities).supportingValues.get? i =
        some (toJs (∑ j in Finset.range probabilities.length,
          row.getD j 0 * probabilities.getD j 0))) ∧
    (∃ c : ℕ, ∃ m : JsNum,
      (evaluateExpectedUtility matrix probabilities).chosenIndex = (c : ℤ) ∧
      (evaluateExpectedUtility matrix probabilities).supportingValues.get? c = some m ∧
      (∀ v ∈ (evaluateExpectedUtility matrix probabilities).supportingValues, v ≤ m) ∧
      ∀ k : ℕ, k < c →
        (evaluateExpectedUtility matrix probabilities).supportingValues.get? k ≠ some m) ∧
    evaluateExpectedUtility payoffs [1/2, 3/10, 1/5] =
      { chosenIndex := 0, supportingValues := [toJs 120, toJs 117, toJs 80] } := by
  refine ⟨?_, ?_, ?_⟩
  · intro i row hrow
    show ((matrix.map (expectedUtilityRow probabilities)).map toJs).get? i = _
    rw [List.get?_map, List.get?_map, hrow]
    have : expectedUtilityRow probabilities row =
        ∑ j in Finset.range probabilities.length,
          row.getD j 0 * probabilities.getD j 0 := by
      rw [expectedUtilityRow_eq_sum, hlen row (List.get?_mem hrow)]
    simp [this]
  · have hvals : ((matrix.map (expectedUtilityRow probabilities)).map toJs) ≠ [] := by
      simpa using hne
    exact indexOf_jsMax_spec hvals
  · have heu : payoffs.map (expectedUtilityRow [1/2, 3/10, 1/5]) = [120, 117, 80] := by
      show [expectedUtilityRow [1/2, 3/10, 1/5] [200, 100, -50],
            expectedUtilityRow [1/2, 3/10, 1/5] [150, 120, 30],
            expectedUtilityRow [1/2, 3/10, 1/5] [80, 80, 80]] = _
      norm_num [expectedUtilityRow, List.enum, List.enumFrom]
    have hsv : (evaluateExpectedUtility payoffs [1/2, 3/10, 1/5]).supportingValues =
        [toJs 120, toJs 117, toJs 80] := by
      show (payoffs.map (expectedUtilityRow [1/2, 3/10, 1/5])).map toJs = _
      rw [heu]
      rfl
    have hci : (evaluateExpectedUtility payoffs [1/2, 3/10, 1/5]).chosenIndex = 0 := by
      show jsIndexOf ((payoffs.map (expectedUtilityRow [1/2, 3/10, 1/5])).map toJs)
        (jsMax ((payoffs.map (expectedUtilityRow [1/2, 3/10, 1/5])).map toJs)) = 0
      rw [heu]
      decide
    calc evaluateExpectedUtility payoffs [1/2, 3/10, 1/5]
        = { chosenIndex := (evaluateExpectedUtility payoffs [1/2, 3/10, 1/5]).chosenIndex
            supportingValues :=
              (evaluateExpectedUtility payoffs [1/2, 3/10, 1/5]).supportingValues } := rfl
      _ = _ := by rw [hci, hsv]

/-- Witness for C5 at the demo matrix and probabilities. -/
theorem evaluateExpectedUtility_correct_witness :
    ∃ c : ℕ, ∃ m : JsNum,
      (evaluateExpectedUtility payoffs [1/2, 3/10, 1/5]).chosenIndex = (c : ℤ) ∧
      (evaluateExpectedUtility payoffs [1/2, 3/10, 1/5]).supportingValues.get? c = some m ∧
      (∀ v ∈ (evaluateExpectedUtility payoffs [1/2, 3/10, 1/5]).supportingValues, v ≤ m) ∧
      ∀ k : ℕ, k < c →
        (evaluateExpectedUtility payoffs [1/2, 3/10, 1/5]).supportingValues.get? k ≠ some m :=
  (evaluateExpectedUtility_correct payoffs [1/2, 3/10, 1/5] (by decide)
    (by intro row hrow; fin_cases hrow <;> rfl)).2.1

/-- The probability vector the normalizing `ExpectedUtilitySection`
variant hands to the calculator:
`total = highDemand + mediumDemand + lowDemand` and
`probabilities = total > 0 ? [highDemand/total, mediumDemand/total, lowDemand/total] : [0.33, 0.34, 0.33]`. -/
def sectionProbabilities (highDemand mediumDemand lowDemand : ℚ) : List ℚ :=
  let total := highDemand + mediumDemand + lowDemand
  if 0 < total then [highDemand / total, mediumDemand / total, lowDemand / total]
  else [33/100, 34/100, 33/100]

/-- Counterexample to C6 as stated: on the all-zero vector the section
falls back to `[0.33, 0.34, 0.33]`, which is not the uniform
distribution `[1/3, 1/3, 1/3]`. -/
theorem sectionProbabilities_zero_not_uniform :
    sectionProbabilities 0 0 0 = [33/100, 34/100, 33/100] ∧
    sectionProbabilities 0 0 0 ≠ [1/3, 1/3, 1/3] := by
  constructor
  · norm_num [sectionProbabilities]
  · norm_num [sectionProbabilities]

/-- C6 (amended): when the supplied percentages sum to zero or a negative
total, the section does not divide by the total; it falls back to the
fixed distribution `[0.33, 0.34, 0.33]` (which sums to `1` but is not
exactly uniform), and the expected-value computation runs on that
fallback vector. -/
theorem sectionProbabilities_fallback (h m l : ℚ) (htot : h + m + l ≤ 0) :
    sectionProbabilities h m l = [33/100, 34/100, 33/100] ∧
    (33/100 + 34/100 + 33/100 : ℚ) = 1 ∧
    ∀ matrix : List (List ℚ),
      evaluateExpectedUtility matrix (sectionProbabilities h m l) =
        evaluateExpectedUtility matrix [33/100, 34/100, 33/100] := by
  have hp : sectionProbabilities h m l = [33/100, 34/100, 33/100] := by
    rw [sectionProbabilities, if_neg (not_lt.mpr htot)]
  exact ⟨hp, by norm_num, fun matrix => by rw [hp]⟩

/-- Witness for the amended C6 at the all-zero vector. -/
theorem sectionProbabilities_fallback_witness :
    sectionProbabilities 0 0 0 = [33/100, 34/100, 33/100] :=
  (sectionProbabilities_fallback 0 0 0 (by norm_num)).1

/-- C7: scaling all three percentages by a positive constant before the
section's normalization leaves the normalized probabilities, and hence
the whole Expected Utility evaluation, unchanged. -/
theorem sectionProbabilities_scale_invariant (h m l c : ℚ) (hc : 0 < c)
    (hpos : 0 < h + m + l) :
    sectionProbabilities (c * h) (c * m) (c * l) = sectionProbabilities h m l ∧
    ∀ matrix : List (List ℚ),
      evaluateExpectedUtility matrix (sectionProbabilities (c * h) (c * m) (c * l)) =
        evaluateExpectedUtility matrix (sectionProbabilities h m l) := by
  have htot : c * h + c * m + c * l = c * (h + m + l) := by ring
  have hpos' : 0 < c * h + c * m + c * l := by
    rw [htot]; positivity
  have hp : sectionProbabilities (c * h) (c * m) (c * l) = sectionProbabilities h m l := by
    rw [sectionProbabilities, sectionProbabilities]
    rw [if_pos hpos', if_pos hpos]
    rw [htot]
    rw [mul_div_mul_left h (h + m + l) (ne_of_gt hc),
      mul_div_mul_left m (h + m + l) (ne_of_gt hc),
      mul_div_mul_left l (h + m + l) (ne_of_gt hc)]
  exact ⟨hp, fun matrix => by rw [hp]⟩

/-- Witness for C7 at a concrete vector and scale factor. -/
theorem sectionProbabilities_scale_invariant_witness :
    sectionProbabilities (2 * 1) (2 * 2) (2 * 3) = sectionProbabilities 1 2 3 :=
  (sectionProbabilities_scale_invariant 1 2 3 2 (by norm_num) (by norm_num)).1

/-- Counterexample to C8 as stated: on the empty matrix — a malformed
input — `evaluateMaximax` does not signal an input-validation error; it
runs to completion and returns an ordinary criterion result, with
`indexOf` reporting `-1` and no supporting values. -/
theorem evaluateMaximax_empty_returns_result :
    evaluateMaximax [] = { chosenIndex := -1, supportingValues := [] } := rfl

/-- C8 (amended): the evaluators perform no input validation and never
fail: on the empty matrix each runs to completion and returns a
degenerate result with chosenIndex `-1`; a row with no columns yields a
`-Infinity` row maximum (or `Infinity` row minimum) instead of an error,
and rows of unequal length are processed without any shape check. -/
theorem evaluators_no_input_validation :
    evaluateMaximax [] = { chosenIndex := -1, supportingValues := [] } ∧
    evaluateMaximin [] = { chosenIndex := -1, supportingValues := [] } ∧
    evaluateMinimaxRegret [] =
      { chosenIndex := -1, bestInColumn := [], regretMatrix := [], maxRegrets := [] } ∧
    evaluateExpectedUtility [] [1/2, 3/10, 1/5] =
      { chosenIndex := -1, supportingValues := [] } ∧
    evaluateMaximax [[]] = { chosenIndex := 0, supportingValues := [⊥] } ∧
    evaluateMaximin [[]] = { chosenIndex := 0, supportingValues := [jsInf] } ∧
    evaluateMaximax [[1], [2, 3]] =
      { chosenIndex := 1, supportingValues := [toJs 1, toJs 3] } := by
  refine ⟨rfl, rfl, rfl, rfl, by decide, by decide, by decide⟩

/-- The probability stepper state of the interactive Expected Utility
section: the three demand percentages (held as integers in `[0, 100]`,
initialized to 33/34/33). -/
structure DemandState where
  highDemand : ℤ
  mediumDemand : ℤ
  lowDemand : ℤ
  deriving DecidableEq, Repr

/-- The initial stepper state:
`useState(33)`, `useState(34)`, `useState(33)`. -/
def initialDemandState : DemandState :=
  { highDemand := 33, mediumDemand := 34, lowDemand := 33 }

/-- `handleHighDemandChange`:
`clampedValue = Math.max(0, Math.min(100 - lowDemand, newValue))`,
`newMedium = 100 - clampedValue - lowDemand`; low stays fixed. -/
def handleHighDemandChange (s : DemandState) (newValue : ℤ) : DemandState :=
  let clampedValue := max 0 (min (100 - s.lowDemand) newValue)
  let newMedium := 100 - clampedValue - s.lowDemand
  { highDemand := clampedValue, mediumDemand := newMedium, lowDemand := s.lowDemand }

/-- `handleMediumDemandChange`: when increasing, reduce low first, then
high, and do nothing at all if high cannot absorb the rest; when
decreasing (or unchanged), add to high up to 100, the remainder to low. -/
def handleMediumDemandChange (s : DemandState) (newValue : ℤ) : DemandState :=
  let diff := newValue - s.mediumDemand
  if 0 < diff then
    let reduceFromLow := min diff s.lowDemand
    let reduceFromHigh := diff - reduceFromLow
    if reduceFromHigh ≤ s.highDemand then
      { highDemand := s.highDemand - reduceFromHigh
        mediumDemand := newValue
        lowDemand := s.lowDemand - reduceFromLow }
    else s
  else
    let addToHigh := min (-diff) (100 - s.highDemand)
    let addToLow := -diff - addToHigh
    { highDemand := s.highDemand + addToHigh
      mediumDemand := newValue
      lowDemand := s.lowDemand + addToLow }

/-- `handleLowDemandChange`:
`clampedValue = Math.max(0, Math.min(100 - highDemand, newValue))`,
`newMedium = 100 - highDemand - clampedValue`; high stays fixed. -/
def handleLowDemandChange (s : DemandState) (newValue : ℤ) : DemandState :=
  let clampedValue := max 0 (min (100 - s.highDemand) newValue)
  let newMedium := 100 - s.highDemand - clampedValue
  { highDemand := s.highDemand, mediumDemand := newMedium, lowDemand := clampedValue }

/-- One stepper interaction: which handler is called, with which value. -/
inductive DemandUpdate where
  | setHigh (v : ℤ)
  | setMedium (v : ℤ)
  | setLow (v : ℤ)
  deriving DecidableEq, Repr

/-- Dispatch one interaction to its handler. -/
def applyDemandUpdate (s : DemandState) : DemandUpdate → DemandState
  | .setHigh v => handleHighDemandChange s v
  | .setMedium v => handleMediumDemandChange s v
  | .setLow v => handleLowDemandChange s v

/-- The value carried by an interaction. -/
def DemandUpdate.value : DemandUpdate → ℤ
  | .setHigh v => v
  | .setMedium v => v
  | .setLow v => v

/-- Apply a sequence of interactions in order. -/
def applyDemandUpdates (s : DemandState) (updates : List DemandUpdate) : DemandState :=
  updates.foldl applyDemandUpdate s

/-- The section's state invariant: the three percentages sum to 100 and
each lies in `[0, 100]`. -/
def demandInvariant (s : DemandState) : Prop :=
  s.highDemand + s.mediumDemand + s.lowDemand = 100 ∧
  0 ≤ s.highDemand ∧ s.highDemand ≤ 100 ∧
  0 ≤ s.mediumDemand ∧ s.mediumDemand ≤ 100 ∧
  0 ≤ s.lowDemand ∧ s.lowDemand ≤ 100

instance (s : DemandState) : Decidable (demandInvariant s) := by
  unfold demandInvariant
  infer_instance

theorem handleHighDemandChange_preserves (s : DemandState) (v : ℤ)
    (hs : demandInvariant s) (hv0 : 0 ≤ v) (hv1 : v ≤ 100) :
    demandInvariant (handleHighDemandChange s v) := by
  obtain ⟨h1, h2, h3, h4, h5, h6, h7⟩ := hs
  unfold demandInvariant handleHighDemandChange
  dsimp only
  omega

theorem handleMediumDemandChange_preserves (s : DemandState) (v : ℤ)
    (hs : demandInvariant s) (hv0 : 0 ≤ v) (hv1 : v ≤ 100) :
    demandInvariant (handleMediumDemandChange s v) := by
  obtain ⟨h1, h2, h3, h4, h5, h6, h7⟩ := hs
  unfold demandInvariant handleMediumDemandChange
  dsimp only
  split_ifs <;> (try dsimp only) <;> omega

theorem handleLowDemandChange_preserves (s : DemandState) (v : ℤ)
    (hs : demandInvariant s) (hv0 : 0 ≤ v) (hv1 : v ≤ 100) :
    demandInvariant (handleLowDemandChange s v) := by
  obtain ⟨h1, h2, h3, h4, h5, h6, h7⟩ := hs
  unfold demandInvariant handleLowDemandChange
  dsimp only
  omega

/-- C9: starting from the initial 33/34/33 state, every sequence of
handler calls with values in `[0, 100]` keeps the three percentages
summing to 100 with each in `[0, 100]`. -/
theorem demandInvariant_preserved (updates : List DemandUpdate)
    (hv : ∀ u ∈ updates, 0 ≤ u.value ∧ u.value ≤ 100) :
    demandInvariant (applyDemandUpdates initialDemandState updates) := by
  have hstep : ∀ (s : DemandState) (u : DemandUpdate), demandInvariant s →
      0 ≤ u.value ∧ u.value ≤ 100 → demandInvariant (applyDemandUpdate s u) := by
    intro s u hs hu
    cases u with
    | setHigh v => exact handleHighDemandChange_preserves s v hs hu.1 hu.2
    | setMedium v => exact handleMediumDemandChange_preserves s v hs hu.1 hu.2
    | setLow v => exact handleLowDemandChange_preserves s v hs hu.1 hu.2
  have hinit : demandInvariant initialDemandState := by decide
  have hgen : ∀ (l : List DemandUpdate) (s : DemandState), demandInvariant s →
      (∀ u ∈ l, 0 ≤ u.value ∧ u.value ≤ 100) →
      demandInvariant (l.foldl applyDemandUpdate s) := by
    intro l
    induction l with
    | nil => intro s hs _; simpa using hs
    | cons u t ih =>
        intro s hs hv'
        simp only [List.foldl_cons]
        exact ih _ (hstep s u hs (hv' u (by simp)))
          (fun w hw => hv' w (by simp [hw]))
  exact hgen updates initialDemandState hinit hv

/-- Witness for C9 on a concrete interaction sequence. -/
theorem demandInvariant_preserved_witness :
    demandInvariant (applyDemandUpdates initialDemandState
      [.setMedium 100, .setHigh 40, .setLow 70, .setMedium 0]) :=
  demandInvariant_preserved [.setMedium 100, .setHigh 40, .setLow 70, .setMedium 0]
    (by decide)

/-- C10: when the requested increase of the medium percentage cannot be
fully absorbed — `newValue - mediumDemand - lowDemand > highDemand` —
`handleMediumDemandChange` changes nothing: all three state values stay
as they were.  (The non-negativity hypotheses hold in every reachable
state, by C9.) -/
theorem handleMediumDemandChange_noop (s : DemandState) (v : ℤ)
    (hhigh : 0 ≤ s.highDemand) (hlow : 0 ≤ s.lowDemand)
    (hcond : v - s.mediumDemand - s.lowDemand > s.highDemand) :
    handleMediumDemandChange s v = s := by
  unfold handleMediumDemandChange
  dsimp only
  split_ifs with h1 h2
  · exfalso; omega
  · rfl
  · exfalso; omega

/-- Witness for C10 at a concrete state and value. -/
theorem handleMediumDemandChange_noop_witness :
    handleMediumDemandChange initialDemandState 200 = initialDemandState :=
  handleMediumDemandChange_noop initialDemandState 200 (by decide) (by decide) (by decide)
